import Mathlib

/-
Verification of the chunk-upload backend (src/server.js) against its
natural-language specification.  The JavaScript handlers are shallowly
embedded as executable Lean definitions: the filesystem is modelled as
association lists (a chunk container is a list of (chunkKey, bytes)
entries in directory-enumeration order, the completed-artifact store is a
list of (fileName, bytes) entries), and each Express route handler becomes
a pure function from the request fields and the store to a response and an
updated store.
-/

/-- Bytes are modelled as natural numbers (0 ≤ b < 256 in practice). -/
abbrev Byte := Nat

/-- Decimal digit test, as used by the JS parseInt builtin in radix 10. -/
def isDigitChar (c : Char) : Bool :=
  decide (48 ≤ c.toNat) && decide (c.toNat ≤ 57)

/-- Numeric value of a digit run; none models the NaN result of parseInt
when no digit is present. -/
def digitsVal (cs : List Char) : Option Nat :=
  match cs with
  | [] => none
  | _ => some (cs.foldl (fun acc c => 10 * acc + (c.toNat - 48)) 0)

/-- The JS parseInt builtin restricted to radix 10: skip leading spaces,
an optional sign, then the longest digit run; none models NaN. -/
def parseIntJS (cs : List Char) : Option Int :=
  let t := cs.dropWhile (fun c => c == ' ')
  match t with
  | '-' :: rest => (digitsVal (rest.takeWhile isDigitChar)).map (fun n => -(n : Int))
  | '+' :: rest => (digitsVal (rest.takeWhile isDigitChar)).map (fun n => (n : Int))
  | _ => (digitsVal (t.takeWhile isDigitChar)).map (fun n => (n : Int))

/-- The JS expression key.split('-')[0]: the characters before the first
dash (the whole key when it has no dash). -/
def jsSplitHead (s : String) : List Char :=
  s.data.takeWhile (fun c => !(c == '-'))

/-- The numeric index a chunk key sorts by in the merge handler
(src/server.js lines 233-234): parseInt of the leading dash-separated
segment; none models NaN. -/
def chunkNum (k : String) : Option Int :=
  parseIntJS (jsSplitHead k)

/-- The numeric index of a key, defaulting to 0; only used in statements
under the hypothesis that the key actually parses. -/
def keyVal (k : String) : Int :=
  (chunkNum k).getD 0

/-- The merge handler's sort comparator (src/server.js line 235):
parseInt(indexA) - parseInt(indexB).  A NaN result is treated as 0, as the
ECMAScript sort algorithm does. -/
def jsCompare (a b : String) : Int :=
  match chunkNum a, chunkNum b with
  | some x, some y => x - y
  | _, _ => 0

/-- Insertion into a list sorted by the merge comparator, placing the new
element before the first one it does not strictly exceed; iterated, this
computes the stable sort that Array.prototype.sort guarantees. -/
def sortInsert (x : String) : List String → List String
  | [] => [x]
  | y :: ys => if jsCompare x y ≤ 0 then x :: y :: ys else y :: sortInsert x ys

/-- The merge handler's chunks.sort(comparator) (src/server.js lines
232-236), as the stable sort determined by the comparator. -/
def jsSortChunks (l : List String) : List String :=
  l.foldr sortInsert []

/-- The entries of one per-fileHash chunk directory, in
directory-enumeration order: (chunk key, chunk bytes). -/
abbrev ChunkDirEntries := List (String × List Byte)

/-- Reading one chunk slot (fs.readFile of the key's file): the first
entry whose key matches. -/
def chunkLookup (c : ChunkDirEntries) (k : String) : Option (List Byte) :=
  (c.find? (fun p => p.1 == k)).map Prod.snd

/-- Writing one chunk slot (fs.writeFileSync, src/server.js line 183):
replaces the bytes of an existing entry with the same key, otherwise
appends a new entry. -/
def putChunk : ChunkDirEntries → String → List Byte → ChunkDirEntries
  | [], k, b => [(k, b)]
  | p :: rest, k, b => if p.1 == k then (k, b) :: rest else p :: putChunk rest k b

/-- The bytes the merge loop (src/server.js lines 232-251) streams into
the destination artifact: the chunks' bytes concatenated in sorted key
order. -/
def mergeBytes (c : ChunkDirEntries) : List Byte :=
  ((jsSortChunks (c.map Prod.fst)).map (fun k => (chunkLookup c k).getD [])).flatten

/-- The entry sequence the merge loop processes: sorted keys paired with
the bytes read back for each key. -/
def mergeOrder (c : ChunkDirEntries) : ChunkDirEntries :=
  (jsSortChunks (c.map Prod.fst)).map (fun k => (k, (chunkLookup c k).getD []))

/-- The server's on-disk state: the per-fileHash chunk containers
(the chunks directory) and the completed-artifact store (the uploads
directory), both in enumeration order. -/
structure ServerFS where
  chunkContainers : List (String × ChunkDirEntries)
  uploads : List (String × List Byte)
deriving DecidableEq

/-- Lookup of a per-fileHash chunk container directory. -/
def containerLookup (cs : List (String × ChunkDirEntries)) (fh : String) : Option ChunkDirEntries :=
  (cs.find? (fun p => p.1 == fh)).map Prod.snd

/-- fs.mkdirSync if absent (src/server.js lines 177-179): create the
per-fileHash container when it does not exist yet. -/
def ensureContainer (cs : List (String × ChunkDirEntries)) (fh : String) : List (String × ChunkDirEntries) :=
  if cs.any (fun p => p.1 == fh) then cs else cs ++ [(fh, [])]

/-- Replace the contents of an existing container. -/
def setContainer (cs : List (String × ChunkDirEntries)) (fh : String) (c : ChunkDirEntries) : List (String × ChunkDirEntries) :=
  cs.map (fun p => if p.1 == fh then (fh, c) else p)

/-- Remove a container directory (the post-merge cleanup). -/
def dropContainer (cs : List (String × ChunkDirEntries)) (fh : String) : List (String × ChunkDirEntries) :=
  cs.filter (fun p => !(p.1 == fh))

/-- Lookup of a completed artifact by file name. -/
def lookupFile (uploads : List (String × List Byte)) (name : String) : Option (List Byte) :=
  (uploads.find? (fun p => p.1 == name)).map Prod.snd

/-- Write (create or truncate-and-replace) a completed artifact. -/
def setFile (uploads : List (String × List Byte)) (name : String) (b : List Byte) : List (String × List Byte) :=
  if uploads.any (fun p => p.1 == name) then
    uploads.map (fun p => if p.1 == name then (name, b) else p)
  else uploads ++ [(name, b)]

/-- JS truthiness of an optional string request field: present and
non-empty. -/
def truthyStr : Option String → Bool
  | some s => !(s == "")
  | none => false

/-- JS truthiness of an optional numeric request field: present and
non-zero. -/
def truthyInt : Option Int → Bool
  | some n => !(n == 0)
  | none => false

/-- Response of the POST /check-file handler (src/server.js lines 38-82):
missingParams is the 400 response for absent fileHash/fileName; found and
notFound are the code-0 responses with exists true (carrying the stored
size metadata) and exists false. -/
inductive CheckResp where
  | missingParams
  | found (size : Nat)
  | notFound
deriving DecidableEq

/-- The POST /check-file handler (src/server.js lines 38-82): after the
parameter guard, the artifact is looked up by name and exists:true is
returned only when the declared size is truthy and strictly equals the
stored size. -/
def checkFileRequest (uploads : List (String × List Byte)) (fileHash fileName : Option String)
    (size : Option Int) : CheckResp :=
  if !(truthyStr fileHash) || !(truthyStr fileName) then CheckResp.missingParams
  else
    match lookupFile uploads (fileName.getD "") with
    | some bytes =>
      if truthyInt size && ((bytes.length : Int) == size.getD 0) then CheckResp.found bytes.length
      else CheckResp.notFound
    | none => CheckResp.notFound

/-- The temp-marker removal of src/server.js line 111, which replaces the
anchored regex match of: the literal characters temp dash, one or more
decimal digits, dash; by the empty string.  When the string starts with
that pattern it is removed; otherwise the string is unchanged. -/
def stripTemp (s : String) : String :=
  match s.data with
  | 't' :: 'e' :: 'm' :: 'p' :: '-' :: rest =>
    match rest.takeWhile isDigitChar, rest.drop (rest.takeWhile isDigitChar).length with
    | _ :: _, '-' :: tail => String.mk tail
    | _, _ => s
  | _ => s

/-- Outcome of the hash comparison in the POST /verify handler: the
verified flag and, on failure, the reported (expected, actual) pair. -/
structure VerifyResult where
  verified : Bool
  details : Option (String × String)
deriving DecidableEq

/-- The comparison step of the POST /verify handler (src/server.js lines
110-131), given the declared fileHash and the digest actually computed
from the artifact on disk: verified when the temp-prefix-stripped declared
hash or the raw declared hash equals the actual digest; otherwise the
stripped hash is reported as expected and the computed digest as
actual. -/
def verifyDecision (fileHash actualHash : String) : VerifyResult :=
  let providedHash := stripTemp fileHash
  if providedHash == actualHash || fileHash == actualHash then
    { verified := true, details := none }
  else
    { verified := false, details := some (providedHash, actualHash) }

/-- Response of the POST /upload handler (src/server.js lines 163-196):
missingParams is the 400 response, chunkSaved the code-0 success, and
serverFailure the caught-exception 500 response. -/
inductive UploadResp where
  | missingParams
  | chunkSaved
  | serverFailure
deriving DecidableEq

/-- The POST /upload handler (src/server.js lines 163-196).  After the
parameter guard the per-fileHash container directory is created if absent;
only then is req.file dereferenced, so a request without a chunk payload
throws (reading .buffer of undefined) and is answered with the 500
response, after the directory creation side effect has already
happened. -/
def uploadRequest (fs : ServerFS) (hash fileHash : Option String) (file : Option (List Byte)) :
    UploadResp × ServerFS :=
  if !(truthyStr hash) || !(truthyStr fileHash) then (UploadResp.missingParams, fs)
  else
    let fh := fileHash.getD ""
    let cs1 := ensureContainer fs.chunkContainers fh
    match file with
    | none => (UploadResp.serverFailure, { fs with chunkContainers := cs1 })
    | some b =>
      let c := (containerLookup cs1 fh).getD []
      (UploadResp.chunkSaved,
        { fs with chunkContainers := setContainer cs1 fh (putChunk c (hash.getD "") b) })

/-- Response of the POST /merge handler (src/server.js lines 199-271):
the 400 responses for missing parameters, absent chunk directory and empty
chunk directory, and the code-0 success carrying the artifact URL. -/
inductive MergeResp where
  | missingParams
  | noChunkDir
  | noChunkFiles
  | merged (url : String)
deriving DecidableEq

/-- The POST /merge handler (src/server.js lines 199-271) in its
sequential (uncontended) semantics: guard the parameters, fail when the
chunk directory is absent or empty, otherwise write the sorted
concatenation of the chunks to the artifact, delete the chunk slots and
(modelling the delayed best-effort rmdir as having completed) the
container. -/
def mergeRequest (fs : ServerFS) (fileHash fileName : Option String) : MergeResp × ServerFS :=
  if !(truthyStr fileHash) || !(truthyStr fileName) then (MergeResp.missingParams, fs)
  else
    let fh := fileHash.getD ""
    let fn := fileName.getD ""
    match containerLookup fs.chunkContainers fh with
    | none => (MergeResp.noChunkDir, fs)
    | some entries =>
      if entries.length == 0 then (MergeResp.noChunkFiles, fs)
      else
        (MergeResp.merged ("/uploads/" ++ fn),
          { chunkContainers := dropContainer fs.chunkContainers fh,
            uploads := setFile fs.uploads fn (mergeBytes entries) })

/-- Arithmetic modulo 2 to the 32, the word size of the MD5 state. -/
def mask32 (n : Nat) : Nat := n % 4294967296

/-- 32-bit addition. -/
def add32 (a b : Nat) : Nat := mask32 (a + b)

/-- 32-bit bitwise complement (arguments are kept below 2 to the 32). -/
def not32 (a : Nat) : Nat := 4294967295 - a

/-- 32-bit left rotation. -/
def rotl32 (x c : Nat) : Nat := mask32 (x * 2 ^ c) + x / 2 ^ (32 - c)

/-- The per-round shift amounts of MD5. -/
def md5S : List Nat :=
  [7, 12, 17, 22, 7, 12, 17, 22, 7, 12, 17, 22, 7, 12, 17, 22,
   5, 9, 14, 20, 5, 9, 14, 20, 5, 9, 14, 20, 5, 9, 14, 20,
   4, 11, 16, 23, 4, 11, 16, 23, 4, 11, 16, 23, 4, 11, 16, 23,
   6, 10, 15, 21, 6, 10, 15, 21, 6, 10, 15, 21, 6, 10, 15, 21]

/-- The sine-derived additive constants of MD5. -/
def md5K : List Nat :=
  [0xd76aa478, 0xe8c7b756, 0x242070db, 0xc1bdceee,
   0xf57c0faf, 0x4787c62a, 0xa8304613, 0xfd469501,
   0x698098d8, 0x8b44f7af, 0xffff5bb1, 0x895cd7be,
   0x6b901122, 0xfd987193, 0xa679438e, 0x49b40821,
   0xf61e2562, 0xc040b340, 0x265e5a51, 0xe9b6c7aa,
   0xd62f105d, 0x02441453, 0xd8a1e681, 0xe7d3fbc8,
   0x21e1cde6, 0xc33707d6, 0xf4d50d87, 0x455a14ed,
   0xa9e3e905, 0xfcefa3f8, 0x676f02d9, 0x8d2a4c8a,
   0xfffa3942, 0x8771f681, 0x6d9d6122, 0xfde5380c,
   0xa4beea44, 0x4bdecfa9, 0xf6bb4b60, 0xbebfbc70,
   0x289b7ec6, 0xeaa127fa, 0xd4ef3085, 0x04881d05,
   0xd9d4d039, 0xe6db99e5, 0x1fa27cf8, 0xc4ac5665,
   0xf4292244, 0x432aff97, 0xab9423a7, 0xfc93a039,
   0x655b59c3, 0x8f0ccc92, 0xffeff47d, 0x85845dd1,
   0x6fa87e4f, 0xfe2ce6e0, 0xa3014314, 0x4e0811a1,
   0xf7537e82, 0xbd3af235, 0x2ad7d2bb, 0xeb86d391]

/-- The MD5 round function, selected by the round index. -/
def md5F (i b c d : Nat) : Nat :=
  if i < 16 then (b &&& c) ||| (not32 b &&& d)
  else if i < 32 then (d &&& b) ||| (not32 d &&& c)
  else if i < 48 then b ^^^ c ^^^ d
  else c ^^^ (b ||| not32 d)

/-- The MD5 message-word index for each round. -/
def md5G (i : Nat) : Nat :=
  if i < 16 then i
  else if i < 32 then (5 * i + 1) % 16
  else if i < 48 then (3 * i + 5) % 16
  else (7 * i) % 16

/-- One MD5 round on the (a, b, c, d) state, given the 16 message words of
the current block. -/
def md5Round (m : List Nat) (i : Nat) : Nat × Nat × Nat × Nat → Nat × Nat × Nat × Nat
  | (a, b, c, d) =>
    let f := add32 (add32 (add32 a (md5F i b c d)) (md5K.getD i 0)) (m.getD (md5G i) 0)
    (d, add32 b (rotl32 f (md5S.getD i 0)), b, c)

/-- A 32-bit word from four little-endian bytes. -/
def leWord (b0 b1 b2 b3 : Nat) : Nat :=
  b0 + 256 * b1 + 65536 * b2 + 16777216 * b3

/-- Group a byte list into little-endian 32-bit words (the input length is
a multiple of four after padding). -/
def bytesToWords : List Nat → List Nat
  | b0 :: b1 :: b2 :: b3 :: rest => leWord b0 b1 b2 b3 :: bytesToWords rest
  | _ => []

/-- The low bytes of a number, little endian, with a fixed byte count. -/
def leBytes (n : Nat) : Nat → List Nat
  | 0 => []
  | c + 1 => (n % 256) :: leBytes (n / 256) c

/-- MD5 padding: a 0x80 marker byte, zero bytes up to 56 modulo 64, then
the bit length as an 8-byte little-endian number. -/
def md5Pad (msg : List Nat) : List Nat :=
  msg ++ [128] ++ List.replicate ((119 - msg.length % 64) % 64) 0 ++ leBytes (8 * msg.length) 8

/-- The MD5 compression over all 64-byte blocks of the padded message,
from the standard initial state. -/
def md5Core (msg : List Nat) : Nat × Nat × Nat × Nat :=
  let padded := md5Pad msg
  (List.range (padded.length / 64)).foldl
    (fun s i =>
      let m := bytesToWords ((padded.drop (64 * i)).take 64)
      let t := (List.range 64).foldl (fun u j => md5Round m j u) s
      (add32 s.1 t.1, add32 s.2.1 t.2.1, add32 s.2.2.1 t.2.2.1, add32 s.2.2.2 t.2.2.2))
    (0x67452301, 0xefcdab89, 0x98badcfe, 0x10325476)

/-- A lowercase hexadecimal digit. -/
def hexDigit (n : Nat) : Char :=
  if n < 10 then Char.ofNat (48 + n) else Char.ofNat (87 + n)

/-- Two lowercase hexadecimal digits of one byte. -/
def byteHex (b : Nat) : List Char :=
  [hexDigit (b / 16), hexDigit (b % 16)]

/-- The lowercase hex MD5 digest of a byte sequence, as produced by
crypto.createHash('md5') followed by digest('hex') in calculateFileHash
(src/server.js lines 143-160). -/
def md5Hex (msg : List Byte) : String :=
  String.mk ((([md5Core msg |>.1, md5Core msg |>.2.1, md5Core msg |>.2.2.1,
    md5Core msg |>.2.2.2].map (fun w => leBytes w 4)).flatten.map byteHex).flatten)

/-- One event delivered by the read stream in calculateFileHash: a data
buffer, the end event, or an error event. -/
inductive SEvent where
  | data (b : List Byte)
  | streamEnd
  | streamError
deriving DecidableEq

/-- The event-loop behaviour of calculateFileHash (src/server.js lines
143-160): each data event folds its bytes into the running hash, the first
end event resolves the promise with the hex digest of everything hashed so
far, the first error event rejects it; none models a promise that never
settles because the stream never signalled end or error. -/
def runHashEvents : List SEvent → List Byte → Option (Except Unit String)
  | [], _ => none
  | SEvent.data b :: es, acc => runHashEvents es (acc ++ b)
  | SEvent.streamEnd :: _, acc => some (Except.ok (md5Hex acc))
  | SEvent.streamError :: _, _ => some (Except.error ())

/-- calculateFileHash (src/server.js lines 143-160) as a function of the
stream's event sequence. -/
def calculateFileHash (events : List SEvent) : Option (Except Unit String) :=
  runHashEvents events []

/-- Final outcome of one in-flight merge request in the concurrent model.
The first four constructors are the responses the handler code can send
(the two 400 responses, the caught-exception 500 and the code-0 success).
mergeInProgress is the response the specification's MergeInProgressError
would map to; it is included so that its absence can be stated, and no
code path produces it. -/
inductive MergeTaskResp where
  | noChunkDirResp
  | noChunkFilesResp
  | serverError
  | mergedOk
  | mergeInProgress
deriving DecidableEq

/-- Program counter of one in-flight POST /merge task, split at its await
points (src/server.js lines 199-271): before the existsSync check, resumed
from the readdir await, resumed from a readFile await inside the loop with
the remaining sorted keys, resumed from an unlink await, or finished with
a response. -/
inductive MergePC where
  | start
  | readdirWait
  | reading (todo : List String)
  | unlinking (k : String) (todo : List String)
  | finished (r : MergeTaskResp)
deriving DecidableEq

/-- The filesystem shared by concurrent merges of one fileHash/fileName
pair: the chunk container (none when the directory is absent) and the
destination artifact.  Writes through the two streams are modelled as
appends to the shared artifact, which each stream opening truncates. -/
structure MergeFS where
  container : Option ChunkDirEntries
  artifact : Option (List Byte)
deriving DecidableEq

/-- Observable actions recorded while a merge task runs: passing the
directory check, snapshotting the directory listing, opening the write
stream, writing one chunk, unlinking one chunk, and responding. -/
inductive MAction where
  | checked
  | snapshot
  | opened
  | wrote (k : String)
  | unlinked (k : String)
  | responded (r : MergeTaskResp)
deriving DecidableEq

/-- One scheduled step of an in-flight merge task (src/server.js lines
199-271): each step runs one synchronous segment between await points
against the shared filesystem and returns the new filesystem, the new
program counter and the recorded actions.  A readFile or unlink of a slot
another merge has already deleted throws and is answered by the catch-all
500 response. -/
def mergeStep (fs : MergeFS) : MergePC → MergeFS × MergePC × List MAction
  | MergePC.start =>
    match fs.container with
    | none => (fs, MergePC.finished MergeTaskResp.noChunkDirResp,
        [MAction.responded MergeTaskResp.noChunkDirResp])
    | some _ => (fs, MergePC.readdirWait, [MAction.checked])
  | MergePC.readdirWait =>
    match fs.container with
    | none => (fs, MergePC.finished MergeTaskResp.serverError,
        [MAction.responded MergeTaskResp.serverError])
    | some entries =>
      if entries.length == 0 then
        (fs, MergePC.finished MergeTaskResp.noChunkFilesResp,
          [MAction.responded MergeTaskResp.noChunkFilesResp])
      else
        ({ fs with artifact := some [] },
          MergePC.reading (jsSortChunks (entries.map Prod.fst)),
          [MAction.snapshot, MAction.opened])
  | MergePC.reading [] =>
    (fs, MergePC.finished MergeTaskResp.mergedOk, [MAction.responded MergeTaskResp.mergedOk])
  | MergePC.reading (k :: todo) =>
    match fs.container.bind (fun c => chunkLookup c k) with
    | none => (fs, MergePC.finished MergeTaskResp.serverError,
        [MAction.responded MergeTaskResp.serverError])
    | some b =>
      ({ fs with artifact := some ((fs.artifact.getD []) ++ b) },
        MergePC.unlinking k todo, [MAction.wrote k])
  | MergePC.unlinking k todo =>
    match fs.container with
    | none => (fs, MergePC.finished MergeTaskResp.serverError,
        [MAction.responded MergeTaskResp.serverError])
    | some c =>
      if c.any (fun p => p.1 == k) then
        let fs2 : MergeFS := { fs with container := some (c.filter (fun p => !(p.1 == k))) }
        match todo with
        | [] => (fs2, MergePC.finished MergeTaskResp.mergedOk,
            [MAction.unlinked k, MAction.responded MergeTaskResp.mergedOk])
        | _ => (fs2, MergePC.reading todo, [MAction.unlinked k])
      else (fs, MergePC.finished MergeTaskResp.serverError,
        [MAction.responded MergeTaskResp.serverError])
  | MergePC.finished r => (fs, MergePC.finished r, [])

/-- Run two concurrent merge tasks for the same fileHash under a given
schedule: false schedules one step of the first task, true one step of the
second.  Returns the final filesystem, both program counters and the
interleaved action trace tagged by task. -/
def runSched : MergeFS → MergePC → MergePC → List Bool → MergeFS × MergePC × MergePC × List (Bool × MAction)
  | fs, pcA, pcB, [] => (fs, pcA, pcB, [])
  | fs, pcA, pcB, false :: rest =>
    match mergeStep fs pcA with
    | (fs2, pcA2, acts) =>
      match runSched fs2 pcA2 pcB rest with
      | (fs3, a3, b3, tr) => (fs3, a3, b3, acts.map (fun a => (false, a)) ++ tr)
  | fs, pcA, pcB, true :: rest =>
    match mergeStep fs pcB with
    | (fs2, pcB2, acts) =>
      match runSched fs2 pcA pcB2 rest with
      | (fs3, a3, b3, tr) => (fs3, a3, b3, acts.map (fun a => (true, a)) ++ tr)

/-- The task tags of the write actions of a trace, in order. -/
def writesOf (tr : List (Bool × MAction)) : List Bool :=
  tr.filterMap (fun p => match p.2 with | MAction.wrote _ => some p.1 | _ => none)

/-- The number of adjacent task switches in a tag sequence; two or more
among the write tags means the two writers interleaved. -/
def switches : List Bool → Nat
  | [] => 0
  | [_] => 0
  | a :: b :: rest => (if a == b then 0 else 1) + switches (b :: rest)

/-- The chunk container used in the concrete two-merge schedules: two
chunks with distinct numeric keys. -/
def c2Container : ChunkDirEntries := [("0-a", [65, 65]), ("1-b", [66, 66])]

/-- A concrete schedule of two merges of the same fileHash: both pass the
guards and snapshot the directory before either unlinks, the first then
completes while the second stalls between its first write and its first
unlink. -/
def c2Sched : List Bool := [false, false, true, true, false, true, false, false, true, false]

/-- Lexicographic order on character lists, by code point. -/
def lexLeChars : List Char → List Char → Bool
  | [], _ => true
  | _ :: _, [] => false
  | a :: as, b :: bs =>
    if a.toNat < b.toNat then true
    else if b.toNat < a.toNat then false
    else lexLeChars as bs

/-- Lexicographic order on the full key strings, used by the
specification's tie-break. -/
def lexLeStr (a b : String) : Bool := lexLeChars a.data b.data

/-- The sort the specification prescribes for merge, defined from the
specification's words for comparison with the code's sort: ascending by
the numeric value of the leading segment, ties broken by the full key
string. -/
def specTieInsert (x : String) : List String → List String
  | [] => [x]
  | y :: ys =>
    if keyVal x < keyVal y ∨ (keyVal x = keyVal y ∧ lexLeStr x y = true) then x :: y :: ys
    else y :: specTieInsert x ys

/-- The specification-side merge ordering: sort all keys by numeric value
with lexical tie-break. -/
def specTieSort (l : List String) : List String :=
  l.foldr specTieInsert []

/-- The specification-side merge result: concatenation in numeric order
with lexical tie-break, defined from the specification's words for
comparison with mergeBytes. -/
def specMergeBytes (c : ChunkDirEntries) : List Byte :=
  ((specTieSort (c.map Prod.fst)).map (fun k => (chunkLookup c k).getD [])).flatten

theorem sortInsert_perm (x : String) (l : List String) :
    List.Perm (sortInsert x l) (x :: l) := by
  induction l with
  | nil => simp [sortInsert]
  | cons y ys ih =>
    simp only [sortInsert]
    split
    · exact List.Perm.refl _
    · exact (ih.cons y).trans (List.Perm.swap x y ys)

theorem jsSortChunks_perm (l : List String) : List.Perm (jsSortChunks l) l := by
  induction l with
  | nil => simp [jsSortChunks]
  | cons x xs ih =>
    have h : jsSortChunks (x :: xs) = sortInsert x (jsSortChunks xs) := rfl
    rw [h]
    exact (sortInsert_perm x (jsSortChunks xs)).trans (ih.cons x)

theorem jsCompare_le (a b : String) (ha : (chunkNum a).isSome) (hb : (chunkNum b).isSome) :
    jsCompare a b ≤ 0 ↔ keyVal a ≤ keyVal b := by
  rcases Option.isSome_iff_exists.mp ha with ⟨x, hx⟩
  rcases Option.isSome_iff_exists.mp hb with ⟨y, hy⟩
  simp only [jsCompare, keyVal, hx, hy, Option.getD_some]
  omega

theorem sortInsert_pairwise (x : String) (l : List String)
    (hx : (chunkNum x).isSome) (hl : ∀ k ∈ l, (chunkNum k).isSome)
    (h : List.Pairwise (fun a b => keyVal a ≤ keyVal b) l) :
    List.Pairwise (fun a b => keyVal a ≤ keyVal b) (sortInsert x l) := by
  induction l with
  | nil => simp [sortInsert]
  | cons y ys ih =>
    have hy : (chunkNum y).isSome := hl y (List.mem_cons_self y ys)
    have hys : ∀ k ∈ ys, (chunkNum k).isSome := fun k hk => hl k (List.mem_cons_of_mem y hk)
    rcases List.pairwise_cons.mp h with ⟨hyb, htail⟩
    simp only [sortInsert]
    split
    case isTrue hle =>
      have hxy : keyVal x ≤ keyVal y := (jsCompare_le x y hx hy).mp hle
      refine List.pairwise_cons.mpr ⟨?_, h⟩
      intro z hz
      rcases List.mem_cons.mp hz with rfl | hz2
      · exact hxy
      · exact le_trans hxy (hyb z hz2)
    case isFalse hgt =>
      have hyx : keyVal y ≤ keyVal x := by
        have hnot : ¬ keyVal x ≤ keyVal y := fun hc => hgt ((jsCompare_le x y hx hy).mpr hc)
        omega
      refine List.pairwise_cons.mpr ⟨?_, ih hys htail⟩
      intro z hz
      have hz2 : z ∈ x :: ys := (sortInsert_perm x ys).mem_iff.mp hz
      rcases List.mem_cons.mp hz2 with rfl | hz3
      · exact hyx
      · exact hyb z hz3

theorem jsSortChunks_pairwise (l : List String) (hp : ∀ k ∈ l, (chunkNum k).isSome) :
    List.Pairwise (fun a b => keyVal a ≤ keyVal b) (jsSortChunks l) := by
  induction l with
  | nil => simp [jsSortChunks]
  | cons x xs ih =>
    have h : jsSortChunks (x :: xs) = sortInsert x (jsSortChunks xs) := rfl
    rw [h]
    have hxs : ∀ k ∈ xs, (chunkNum k).isSome := fun k hk => hp k (List.mem_cons_of_mem x hk)
    refine sortInsert_pairwise x _ (hp x (List.mem_cons_self x xs)) ?_ (ih hxs)
    intro k hk
    exact hxs k ((jsSortChunks_perm xs).mem_iff.mp hk)

theorem sortInsert_filter_class (x : String) (l : List String) (n : Int) :
    (sortInsert x l).filter (fun k => chunkNum k == some n)
      = (x :: l).filter (fun k => chunkNum k == some n) := by
  induction l with
  | nil => rfl
  | cons y ys ih =>
    simp only [sortInsert]
    split
    case isTrue => rfl
    case isFalse hgt =>
      by_cases hyc : chunkNum y = some n
      · by_cases hxc : chunkNum x = some n
        · exact absurd (by simp [jsCompare, hxc, hyc] : jsCompare x y ≤ 0) hgt
        · simp [List.filter_cons, ih, hxc, hyc]
      · simp [List.filter_cons, ih, hyc]

theorem jsSortChunks_filter_class (l : List String) (n : Int) :
    (jsSortChunks l).filter (fun k => chunkNum k == some n)
      = l.filter (fun k => chunkNum k == some n) := by
  induction l with
  | nil => rfl
  | cons x xs ih =>
    have h : jsSortChunks (x :: xs) = sortInsert x (jsSortChunks xs) := rfl
    rw [h, sortInsert_filter_class]
    simp [List.filter_cons, ih]

theorem mergeBytes_eq_flatten (c : ChunkDirEntries) :
    mergeBytes c = ((mergeOrder c).map Prod.snd).flatten := by
  simp [mergeBytes, mergeOrder, List.map_map, Function.comp_def]

theorem map_keyLookup_eq (c : ChunkDirEntries) (hnd : (c.map Prod.fst).Nodup) :
    (c.map Prod.fst).map (fun k => (k, (chunkLookup c k).getD [])) = c := by
  induction c with
  | nil => rfl
  | cons p rest ih =>
    rcases p with ⟨k, b⟩
    have hnotmem : k ∉ rest.map Prod.fst := (List.nodup_cons.mp hnd).1
    have hndrest : (rest.map Prod.fst).Nodup := (List.nodup_cons.mp hnd).2
    simp only [List.map_cons]
    have hhead : chunkLookup ((k, b) :: rest) k = some b := by
      simp [chunkLookup, List.find?_cons_of_pos]
    have hmap : (rest.map Prod.fst).map (fun k2 => (k2, (chunkLookup ((k, b) :: rest) k2).getD []))
        = (rest.map Prod.fst).map (fun k2 => (k2, (chunkLookup rest k2).getD [])) := by
      apply List.map_congr_left
      intro a ha
      have hne : ((k, b).1 == a) = false := by
        simp only [beq_eq_false_iff_ne]
        intro hEq
        exact hnotmem (hEq ▸ ha)
      simp [chunkLookup, List.find?_cons_of_neg, hne]
    rw [hhead, hmap, ih hndrest]
    simp

theorem mergeOrder_perm (c : ChunkDirEntries) (hnd : (c.map Prod.fst).Nodup) :
    List.Perm (mergeOrder c) c := by
  have h1 : List.Perm (jsSortChunks (c.map Prod.fst)) (c.map Prod.fst) := jsSortChunks_perm _
  have h2 := h1.map (fun k => (k, (chunkLookup c k).getD []))
  rw [map_keyLookup_eq c hnd] at h2
  exact h2

theorem mergeOrder_pairwise (c : ChunkDirEntries) (hp : ∀ p ∈ c, (chunkNum p.1).isSome) :
    List.Pairwise (fun p q : String × List Byte => keyVal p.1 ≤ keyVal q.1) (mergeOrder c) := by
  have hkeys : ∀ k ∈ c.map Prod.fst, (chunkNum k).isSome := by
    intro k hk
    rcases List.mem_map.mp hk with ⟨p, hpmem, rfl⟩
    exact hp p hpmem
  have hs := jsSortChunks_pairwise (c.map Prod.fst) hkeys
  exact List.pairwise_map.mpr hs

theorem mergeBytes_canonical (l s : ChunkDirEntries)
    (hp : ∀ p ∈ l, (chunkNum p.1).isSome)
    (hd : List.Pairwise (fun p q : String × List Byte => keyVal p.1 ≠ keyVal q.1) l)
    (hls : List.Perm l s)
    (hsorted : List.Pairwise (fun p q : String × List Byte => keyVal p.1 < keyVal q.1) s) :
    mergeBytes l = (s.map Prod.snd).flatten := by
  have hkeysnd : (l.map Prod.fst).Nodup := by
    have hne : List.Pairwise (fun p q : String × List Byte => p.1 ≠ q.1) l :=
      List.Pairwise.imp (fun h heq => h (congrArg keyVal heq)) hd
    exact List.pairwise_map.mpr hne
  have hmo_perm : List.Perm (mergeOrder l) l := mergeOrder_perm l hkeysnd
  have hmo_le := mergeOrder_pairwise l hp
  have hd_mo : List.Pairwise (fun p q : String × List Byte => keyVal p.1 ≠ keyVal q.1) (mergeOrder l) :=
    (hmo_perm.pairwise_iff (fun h => Ne.symm h)).mpr hd
  have hlt_mo : List.Pairwise (fun p q : String × List Byte => keyVal p.1 < keyVal q.1) (mergeOrder l) :=
    List.Pairwise.imp (fun h => lt_of_le_of_ne h.1 h.2) (hmo_le.and hd_mo)
  have hperm2 : List.Perm (mergeOrder l) s := hmo_perm.trans hls
  haveI : IsAntisymm (String × List Byte) (fun p q => keyVal p.1 < keyVal q.1) :=
    ⟨fun a b h1 h2 => (lt_asymm h1 h2).elim⟩
  have heq : mergeOrder l = s := List.eq_of_perm_of_sorted hperm2 hlt_mo hsorted
  rw [mergeBytes_eq_flatten, heq]

/-- The C1 scenario chunks in their arrival order: keys 0-a, 2-c, 1-b with
bytes AA, CC, BB (byte value 65 is A, 66 is B, 67 is C). -/
def c1Arrival : ChunkDirEntries := [("0-a", [65, 65]), ("2-c", [67, 67]), ("1-b", [66, 66])]

/-- The same chunk set in a different enumeration order. -/
def c1Other : ChunkDirEntries := [("2-c", [67, 67]), ("1-b", [66, 66]), ("0-a", [65, 65])]

/-- The same chunk set in ascending numeric-key order. -/
def c1Sorted : ChunkDirEntries := [("0-a", [65, 65]), ("1-b", [66, 66]), ("2-c", [67, 67])]

/-- C1: for every chunk container whose keys all carry a parseable numeric
leading segment with pairwise distinct numeric values, the bytes merge
writes equal the concatenation of the chunks' bytes in ascending numeric
order (the flattening of any numerically sorted rearrangement s of the
container), and the result is unchanged under any permutation of the
container's enumeration order — hence independent of the order in which
the chunks were uploaded. -/
theorem c1_merge_numeric_order (l l2 s : ChunkDirEntries)
    (hp : ∀ p ∈ l, (chunkNum p.1).isSome)
    (hd : List.Pairwise (fun p q : String × List Byte => keyVal p.1 ≠ keyVal q.1) l)
    (hperm : List.Perm l l2)
    (hls : List.Perm l s)
    (hsorted : List.Pairwise (fun p q : String × List Byte => keyVal p.1 < keyVal q.1) s) :
    mergeBytes l = mergeBytes l2 ∧ mergeBytes l = (s.map Prod.snd).flatten := by
  have h1 := mergeBytes_canonical l s hp hd hls hsorted
  have hp2 : ∀ p ∈ l2, (chunkNum p.1).isSome := fun p hm => hp p (hperm.mem_iff.mpr hm)
  have hd2 : List.Pairwise (fun p q : String × List Byte => keyVal p.1 ≠ keyVal q.1) l2 :=
    (hperm.pairwise_iff (fun h => Ne.symm h)).mp hd
  have h2 := mergeBytes_canonical l2 s hp2 hd2 (hperm.symm.trans hls) hsorted
  exact ⟨h1.trans h2.symm, h1⟩

/-- Witness for C1 at the end-to-end scenario of the specification:
chunks 0-a, 2-c, 1-b with bytes AA, CC, BB in that arrival order merge to
AABBCC, and a permuted arrival order merges to the same bytes. -/
theorem c1_merge_numeric_order_witness :
    (∀ p ∈ c1Arrival, (chunkNum p.1).isSome)
    ∧ mergeBytes c1Arrival = mergeBytes c1Other
    ∧ mergeBytes c1Arrival = [65, 65, 66, 66, 67, 67] :=
  ⟨by decide,
   (c1_merge_numeric_order c1Arrival c1Other c1Sorted (by decide) (by decide) (by decide)
      (by decide) (by decide)).1,
   (c1_merge_numeric_order c1Arrival c1Other c1Sorted (by decide) (by decide) (by decide)
      (by decide) (by decide)).2⟩

/-- C4: merging a fileHash whose chunk container is absent, or present but
empty, is answered with one of the two 400 no-chunk responses and the
whole filesystem — in particular the completed-artifact store — is left
unchanged. -/
theorem c4_merge_no_chunks (fs : ServerFS) (fh fn : String) (hfh : fh ≠ "") (hfn : fn ≠ "")
    (hempty : containerLookup fs.chunkContainers fh = none
      ∨ containerLookup fs.chunkContainers fh = some []) :
    ((mergeRequest fs (some fh) (some fn)).1 = MergeResp.noChunkDir
      ∨ (mergeRequest fs (some fh) (some fn)).1 = MergeResp.noChunkFiles)
    ∧ (mergeRequest fs (some fh) (some fn)).2 = fs := by
  rcases hempty with h | h
  · exact ⟨Or.inl (by simp [mergeRequest, truthyStr, hfh, hfn, h]),
      by simp [mergeRequest, truthyStr, hfh, hfn, h]⟩
  · exact ⟨Or.inr (by simp [mergeRequest, truthyStr, hfh, hfn, h]),
      by simp [mergeRequest, truthyStr, hfh, hfn, h]⟩

/-- Witness for C4: merging into an empty filesystem. -/
theorem c4_merge_no_chunks_witness :
    ("h1" ≠ "" ∧ containerLookup ([] : List (String × ChunkDirEntries)) "h1" = none)
    ∧ ((mergeRequest ⟨[], []⟩ (some "h1") (some "f.bin")).1 = MergeResp.noChunkDir
      ∨ (mergeRequest ⟨[], []⟩ (some "h1") (some "f.bin")).1 = MergeResp.noChunkFiles)
    ∧ (mergeRequest ⟨[], []⟩ (some "h1") (some "f.bin")).2 = (⟨[], []⟩ : ServerFS) :=
  ⟨⟨by decide, by decide⟩,
   (c4_merge_no_chunks ⟨[], []⟩ "h1" "f.bin" (by decide) (by decide) (Or.inl (by decide))).1,
   (c4_merge_no_chunks ⟨[], []⟩ "h1" "f.bin" (by decide) (by decide) (Or.inl (by decide))).2⟩

theorem putChunk_lookup (c : ChunkDirEntries) (k : String) (b : List Byte) :
    chunkLookup (putChunk c k b) k = some b := by
  induction c with
  | nil => simp [putChunk, chunkLookup]
  | cons p rest ih =>
    by_cases h : p.1 = k
    · simp [putChunk, h, chunkLookup]
    · have hb : (p.1 == k) = false := by simp [h]
      simp only [putChunk, hb, Bool.false_eq_true, if_false]
      simpa [chunkLookup, List.find?_cons_of_neg, hb] using ih

theorem putChunk_putChunk (c : ChunkDirEntries) (k : String) (b1 b2 : List Byte) :
    putChunk (putChunk c k b1) k b2 = putChunk c k b2 := by
  induction c with
  | nil => simp [putChunk]
  | cons p rest ih =>
    by_cases h : p.1 = k
    · simp [putChunk, h]
    · have hb : (p.1 == k) = false := by simp [h]
      simp [putChunk, hb, ih]

theorem foldl_putChunk (k : String) (bs : List (List Byte)) :
    ∀ (c : ChunkDirEntries) (b : List Byte),
      (b :: bs).foldl (fun acc x => putChunk acc k x) c
        = putChunk c k ((b :: bs).getLast (List.cons_ne_nil b bs)) := by
  induction bs with
  | nil => intro c b; rfl
  | cons b2 bs3 ih =>
    intro c b
    have hstep : (b :: b2 :: bs3).foldl (fun acc x => putChunk acc k x) c
        = (b2 :: bs3).foldl (fun acc x => putChunk acc k x) (putChunk c k b) := rfl
    rw [hstep, ih (putChunk c k b) b2, putChunk_putChunk]
    congr 1

/-- C7: writing the same (fileHash, chunkKey) slot repeatedly before merge
replaces the stored bytes each time: after any non-empty sequence of
writes to one key the container equals the container after a single write
of the last bytes, the slot reads back exactly those bytes, and the merged
artifact therefore reflects only the latest write for that key. -/
theorem c7_rewrite_latest_wins (c : ChunkDirEntries) (k : String) (b : List Byte)
    (bs : List (List Byte)) :
    (b :: bs).foldl (fun acc x => putChunk acc k x) c
      = putChunk c k ((b :: bs).getLast (List.cons_ne_nil b bs))
    ∧ chunkLookup ((b :: bs).foldl (fun acc x => putChunk acc k x) c) k
      = some ((b :: bs).getLast (List.cons_ne_nil b bs))
    ∧ mergeBytes ((b :: bs).foldl (fun acc x => putChunk acc k x) c)
      = mergeBytes (putChunk c k ((b :: bs).getLast (List.cons_ne_nil b bs))) := by
  have h1 := foldl_putChunk k bs c b
  exact ⟨h1, by rw [h1, putChunk_lookup], by rw [h1]⟩

/-- C9: a check-file request whose declared size is 0 or absent is
answered exists:false even when an artifact with the requested name exists
and its stored size (zero bytes) equals the declared size, because the JS
guard short-circuits on a falsy size before comparing. -/
theorem c9_falsy_size_never_matches (uploads : List (String × List Byte)) (fh fn : String)
    (hfh : fh ≠ "") (hfn : fn ≠ "") (hzero : lookupFile uploads fn = some []) :
    checkFileRequest uploads (some fh) (some fn) (some 0) = CheckResp.notFound
    ∧ checkFileRequest uploads (some fh) (some fn) none = CheckResp.notFound := by
  constructor <;> simp [checkFileRequest, truthyStr, truthyInt, hfh, hfn, hzero]

/-- Witness for C9: a stored zero-byte artifact checked with declared size
0 and with no declared size. -/
theorem c9_falsy_size_never_matches_witness :
    ("h" ≠ "" ∧ lookupFile [("a.bin", ([] : List Byte))] "a.bin" = some [])
    ∧ checkFileRequest [("a.bin", [])] (some "h") (some "a.bin") (some 0) = CheckResp.notFound
    ∧ checkFileRequest [("a.bin", [])] (some "h") (some "a.bin") none = CheckResp.notFound :=
  ⟨⟨by decide, by decide⟩,
   (c9_falsy_size_never_matches [("a.bin", [])] "h" "a.bin" (by decide) (by decide) (by decide)).1,
   (c9_falsy_size_never_matches [("a.bin", [])] "h" "a.bin" (by decide) (by decide) (by decide)).2⟩

theorem containerLookup_append_self (cs : List (String × ChunkDirEntries)) (fh : String)
    (h : containerLookup cs fh = none) :
    containerLookup (cs ++ [(fh, [])]) fh = some [] := by
  have hfind : cs.find? (fun p => p.1 == fh) = none := Option.map_eq_none'.mp h
  simp [containerLookup, List.find?_append, hfind, List.find?]

theorem containerLookup_append_other (cs : List (String × ChunkDirEntries)) (fh g : String)
    (hne : g ≠ fh) :
    containerLookup (cs ++ [(fh, [])]) g = containerLookup cs g := by
  have hp : ((fh, ([] : ChunkDirEntries)).1 == g) = false := beq_eq_false_iff_ne.mpr (Ne.symm hne)
  have hsingle : ([(fh, ([] : ChunkDirEntries))].find? (fun p => p.1 == g)) = none := by
    simp only [List.find?, hp]
  rcases hfind : cs.find? (fun p => p.1 == g) with _ | v <;>
    simp [containerLookup, List.find?_append, hfind, hsingle, Option.or]

/-- C10: an upload request that carries both hash parameters but no chunk
payload is answered with the 500 failure response and writes no chunk
slot, yet the per-fileHash container directory (absent beforehand) has
been created as a side effect, while all other containers and the
completed-artifact store are untouched. -/
theorem c10_upload_without_payload (fs : ServerFS) (h fh : String)
    (hh : h ≠ "") (hfh : fh ≠ "")
    (habs : containerLookup fs.chunkContainers fh = none) :
    (uploadRequest fs (some h) (some fh) none).1 = UploadResp.serverFailure
    ∧ containerLookup (uploadRequest fs (some h) (some fh) none).2.chunkContainers fh = some []
    ∧ (∀ g, g ≠ fh →
        containerLookup (uploadRequest fs (some h) (some fh) none).2.chunkContainers g
          = containerLookup fs.chunkContainers g)
    ∧ (uploadRequest fs (some h) (some fh) none).2.uploads = fs.uploads := by
  have hfindnone : fs.chunkContainers.find? (fun p => p.1 == fh) = none :=
    Option.map_eq_none'.mp habs
  have hany : (fs.chunkContainers.any (fun p => p.1 == fh)) = false :=
    List.any_eq_false.mpr (List.find?_eq_none.mp hfindnone)
  have hens : ensureContainer fs.chunkContainers fh = fs.chunkContainers ++ [(fh, [])] := by
    simp [ensureContainer, hany]
  refine ⟨?_, ?_, ?_, ?_⟩
  · simp [uploadRequest, truthyStr, hh, hfh]
  · simp [uploadRequest, truthyStr, hh, hfh, hens,
      containerLookup_append_self fs.chunkContainers fh habs]
  · intro g hg
    simp [uploadRequest, truthyStr, hh, hfh, hens,
      containerLookup_append_other fs.chunkContainers fh g hg]
  · simp [uploadRequest, truthyStr, hh, hfh]

/-- Witness for C10: an upload without payload into an empty filesystem
creates the empty container and nothing else. -/
theorem c10_upload_without_payload_witness :
    ("0-a" ≠ "" ∧ "H9" ≠ "" ∧ containerLookup ([] : List (String × ChunkDirEntries)) "H9" = none)
    ∧ (uploadRequest ⟨[], []⟩ (some "0-a") (some "H9") none).1 = UploadResp.serverFailure
    ∧ containerLookup (uploadRequest ⟨[], []⟩ (some "0-a") (some "H9") none).2.chunkContainers "H9"
        = some []
    ∧ (uploadRequest ⟨[], []⟩ (some "0-a") (some "H9") none).2.uploads = [] :=
  ⟨⟨by decide, by decide, by decide⟩,
   (c10_upload_without_payload ⟨[], []⟩ "0-a" "H9" (by decide) (by decide) (by decide)).1,
   (c10_upload_without_payload ⟨[], []⟩ "0-a" "H9" (by decide) (by decide) (by decide)).2.1,
   (c10_upload_without_payload ⟨[], []⟩ "0-a" "H9" (by decide) (by decide) (by decide)).2.2.2⟩

/-- Counterexample to C3 as stated: the declared hash temp-1-abc differs
from the true digest abc, yet verify answers verified true, because the
handler strips the temp-number marker from the declared hash before
comparing. -/
theorem c3_counterexample :
    ("temp-1-abc" : String) ≠ "abc" ∧ (verifyDecision "temp-1-abc" "abc").verified = true :=
  ⟨by decide, by decide⟩

/-- C3 (amended): given the digest d computed from the artifact on disk,
verify answers verified true exactly when the declared hash with any
temp-number marker stripped equals d or the raw declared hash equals d;
in every other case it answers verified false and reports the stripped
declared hash as expected and d as actual.  A declared hash equal to d
always verifies. -/
theorem c3_verify_comparison (g d : String) :
    ((verifyDecision g d).verified = true ↔ (stripTemp g = d ∨ g = d))
    ∧ (stripTemp g ≠ d → g ≠ d →
        verifyDecision g d = { verified := false, details := some (stripTemp g, d) })
    ∧ (verifyDecision d d).verified = true := by
  refine ⟨?_, ?_, ?_⟩
  · by_cases h1 : stripTemp g = d
    · simp [verifyDecision, h1]
    · by_cases h2 : g = d
      · simp [verifyDecision, h1, h2]
      · simp [verifyDecision, h1, h2]
  · intro h1 h2
    simp [verifyDecision, h1, h2]
  · simp [verifyDecision]

/-- Witness for the amended C3: a declared hash that neither equals the
digest nor carries a temp marker is rejected with both values reported. -/
theorem c3_verify_comparison_witness :
    stripTemp "zz" ≠ "abc" ∧ ("zz" : String) ≠ "abc"
    ∧ verifyDecision "zz" "abc" = { verified := false, details := some ("zz", "abc") } :=
  ⟨by decide, by decide, (c3_verify_comparison "zz" "abc").2.1 (by decide) (by decide)⟩

/-- Counterexample to C6 as stated: a zero-byte artifact exists under the
requested name and its stored size equals the declared size 0, yet
check-file answers exists false, because the falsy declared size
short-circuits the size comparison. -/
theorem c6_counterexample :
    lookupFile [("a.bin", ([] : List Byte))] "a.bin" = some []
    ∧ ((([] : List Byte)).length : Int) = 0
    ∧ checkFileRequest [("a.bin", [])] (some "h") (some "a.bin") (some 0) = CheckResp.notFound :=
  ⟨by decide, by decide, by decide⟩

/-- C6 (amended): with valid parameters, check-file answers exists true
precisely when an artifact with the requested name exists, the declared
size is present and non-zero, and the stored size equals the declared
size; in every other case — absent name, size mismatch, or zero or absent
declared size — it answers the code-0 exists false response rather than an
error. -/
theorem c6_check_existing (uploads : List (String × List Byte)) (fh fn : String)
    (size : Option Int) (hfh : fh ≠ "") (hfn : fn ≠ "") :
    ((∃ m, checkFileRequest uploads (some fh) (some fn) size = CheckResp.found m)
      ↔ (∃ bytes n, lookupFile uploads fn = some bytes ∧ size = some n ∧ n ≠ 0
          ∧ (bytes.length : Int) = n))
    ∧ ((¬ ∃ m, checkFileRequest uploads (some fh) (some fn) size = CheckResp.found m) →
        checkFileRequest uploads (some fh) (some fn) size = CheckResp.notFound) := by
  constructor
  · constructor
    · rintro ⟨m, hm⟩
      rcases hlf : lookupFile uploads fn with _ | bytes
      · simp [checkFileRequest, truthyStr, hfh, hfn, hlf] at hm
      · rcases size with _ | n
        · simp [checkFileRequest, truthyStr, truthyInt, hfh, hfn, hlf] at hm
        · by_cases hn : n = 0
          · simp [checkFileRequest, truthyStr, truthyInt, hfh, hfn, hlf, hn] at hm
          · by_cases hlen : (bytes.length : Int) = n
            · exact ⟨bytes, n, rfl, rfl, hn, hlen⟩
            · simp [checkFileRequest, truthyStr, truthyInt, hfh, hfn, hlf, hn, hlen] at hm
    · rintro ⟨bytes, n, hlf, hsz, hn, hlen⟩
      subst hsz
      exact ⟨bytes.length, by simp [checkFileRequest, truthyStr, truthyInt, hfh, hfn, hlf, hn, hlen]⟩
  · intro hne
    rcases hlf : lookupFile uploads fn with _ | bytes
    · simp [checkFileRequest, truthyStr, hfh, hfn, hlf]
    · rcases size with _ | n
      · simp [checkFileRequest, truthyStr, truthyInt, hfh, hfn, hlf]
      · by_cases hn : n = 0
        · simp [checkFileRequest, truthyStr, truthyInt, hfh, hfn, hlf, hn]
        · by_cases hlen : (bytes.length : Int) = n
          · exact absurd ⟨bytes.length,
              by simp [checkFileRequest, truthyStr, truthyInt, hfh, hfn, hlf, hn, hlen]⟩ hne
          · simp [checkFileRequest, truthyStr, truthyInt, hfh, hfn, hlf, hn, hlen]

/-- Witness for the amended C6: a two-byte artifact checked with the
matching name and declared size 2 is reported as existing. -/
theorem c6_check_existing_witness :
    ("h" ≠ "" ∧ "a.bin" ≠ "")
    ∧ ((∃ m, checkFileRequest [("a.bin", [65, 66])] (some "h") (some "a.bin") (some 2)
          = CheckResp.found m)
        ↔ (∃ bytes n, lookupFile [("a.bin", [65, 66])] "a.bin" = some bytes
            ∧ (some 2 : Option Int) = some n ∧ n ≠ 0 ∧ (bytes.length : Int) = n)) :=
  ⟨⟨by decide, by decide⟩,
   (c6_check_existing [("a.bin", [65, 66])] "h" "a.bin" (some 2) (by decide) (by decide)).1⟩

/-- Counterexample to C5 as stated: two chunks whose keys share the
numeric prefix 1.  Under the lexical tie-break the claim describes, the
merged bytes would be 65 then 66 whatever the enumeration order; the code
instead merges the same chunk set to 66, 65 or to 65, 66 depending on the
order the directory listing presents the keys, so placement on ties is not
determined by the key strings. -/
theorem c5_counterexample :
    mergeBytes [("1-b", [66]), ("1-a", [65])] = [66, 65]
    ∧ specMergeBytes [("1-b", [66]), ("1-a", [65])] = [65, 66]
    ∧ List.Perm [("1-b", ([66] : List Byte)), ("1-a", [65])] [("1-a", [65]), ("1-b", [66])]
    ∧ mergeBytes [("1-a", [65]), ("1-b", [66])] = [65, 66] :=
  ⟨by decide, by decide, by decide, by decide⟩

/-- C5 (amended): duplicate numeric prefixes do not crash the merge, but
ties are not broken by the full key string: the comparator returns 0 on
them and the stable sort preserves directory-enumeration order, so for
every numeric value the subsequence of keys with that value is exactly its
enumeration subsequence, and the merge still concatenates every stored
chunk exactly once (the processed entries are a permutation of the
container). -/
theorem c5_stable_tie_order (c : ChunkDirEntries) (n : Int)
    (hnd : (c.map Prod.fst).Nodup) :
    (jsSortChunks (c.map Prod.fst)).filter (fun k => chunkNum k == some n)
      = (c.map Prod.fst).filter (fun k => chunkNum k == some n)
    ∧ List.Perm (mergeOrder c) c
    ∧ mergeBytes c = ((mergeOrder c).map Prod.snd).flatten :=
  ⟨jsSortChunks_filter_class _ n, mergeOrder_perm c hnd, mergeBytes_eq_flatten c⟩

/-- Witness for the amended C5 at the tied container: both tied keys keep
their enumeration order through the sort. -/
theorem c5_stable_tie_order_witness :
    (([("1-b", [66]), ("1-a", [65])] : ChunkDirEntries).map Prod.fst).Nodup
    ∧ (jsSortChunks (([("1-b", [66]), ("1-a", [65])] : ChunkDirEntries).map Prod.fst)).filter
        (fun k => chunkNum k == some 1)
      = (([("1-b", [66]), ("1-a", [65])] : ChunkDirEntries).map Prod.fst).filter
        (fun k => chunkNum k == some 1) :=
  ⟨by decide, (c5_stable_tie_order [("1-b", [66]), ("1-a", [65])] 1 (by decide)).1⟩

theorem runHashEvents_error (es : List SEvent) : ∀ (acc : List Byte) (pre rest : List SEvent),
    es = pre ++ SEvent.streamError :: rest →
    (∀ e ∈ pre, ∃ b, e = SEvent.data b) →
    runHashEvents es acc = some (Except.error ()) := by
  induction es with
  | nil =>
    intro acc pre rest h _
    exact absurd h (by simp)
  | cons e es2 ih =>
    intro acc pre rest h hdata
    cases pre with
    | nil =>
      simp only [List.nil_append, List.cons.injEq] at h
      rcases h with ⟨rfl, rfl⟩
      rfl
    | cons p pre2 =>
      simp only [List.cons_append, List.cons.injEq] at h
      rcases h with ⟨rfl, h2⟩
      rcases hdata e (List.mem_cons_self e pre2) with ⟨b, rfl⟩
      have hdata2 : ∀ x ∈ pre2, ∃ b2, x = SEvent.data b2 :=
        fun x hx => hdata x (List.mem_cons_of_mem _ hx)
      show runHashEvents es2 (acc ++ b) = some (Except.error ())
      exact ih (acc ++ b) pre2 rest h2 hdata2

theorem runHashEvents_ok (es : List SEvent) : ∀ (acc : List Byte) (d : String),
    runHashEvents es acc = some (Except.ok d) →
    ∃ pre rest, es = pre ++ SEvent.streamEnd :: rest
      ∧ (∀ e ∈ pre, ∃ b, e = SEvent.data b)
      ∧ d = md5Hex (acc ++ (pre.filterMap (fun e =>
          match e with | SEvent.data b => some b | _ => none)).flatten) := by
  induction es with
  | nil =>
    intro acc d h
    simp [runHashEvents] at h
  | cons e es2 ih =>
    intro acc d h
    cases e with
    | data b =>
      have h2 : runHashEvents es2 (acc ++ b) = some (Except.ok d) := h
      rcases ih (acc ++ b) d h2 with ⟨pre, rest, hsplit, hdata, hd⟩
      refine ⟨SEvent.data b :: pre, rest, by rw [hsplit]; rfl, ?_, ?_⟩
      · intro x hx
        rcases List.mem_cons.mp hx with rfl | hx2
        · exact ⟨b, rfl⟩
        · exact hdata x hx2
      · rw [hd]
        congr 1
        simp [List.filterMap_cons, List.append_assoc]
    | streamEnd =>
      have h3 : md5Hex acc = d := by
        simpa [runHashEvents] using h
      refine ⟨[], es2, rfl, by simp, ?_⟩
      simp [← h3]
    | streamError =>
      exfalso
      simp [runHashEvents] at h

/-- C8: calculateFileHash resolves with a hex digest only after the
stream's end event, and that digest covers exactly the bytes of every data
event delivered before the end; when the stream signals an error after
only data events, the promise is rejected with the stream error and no
digest — in particular none over the truncated prefix — is ever
returned. -/
theorem c8_digest_fail_closed (es : List SEvent) :
    (∀ pre rest, es = pre ++ SEvent.streamError :: rest →
        (∀ e ∈ pre, ∃ b, e = SEvent.data b) →
        calculateFileHash es = some (Except.error ()))
    ∧ (∀ d, calculateFileHash es = some (Except.ok d) →
        ∃ pre rest, es = pre ++ SEvent.streamEnd :: rest
          ∧ (∀ e ∈ pre, ∃ b, e = SEvent.data b)
          ∧ d = md5Hex (pre.filterMap (fun e =>
              match e with | SEvent.data b => some b | _ => none)).flatten) := by
  constructor
  · intro pre rest hsplit hdata
    exact runHashEvents_error es [] pre rest hsplit hdata
  · intro d h
    rcases runHashEvents_ok es [] d h with ⟨pre, rest, hsplit, hdata, hd⟩
    exact ⟨pre, rest, hsplit, hdata, by simpa using hd⟩

/-- Witness for C8: a stream that delivers one data buffer and then an
error rejects the digest promise. -/
theorem c8_digest_fail_closed_witness :
    ([SEvent.data [65], SEvent.streamError] : List SEvent)
      = [SEvent.data [65]] ++ SEvent.streamError :: []
    ∧ calculateFileHash [SEvent.data [65], SEvent.streamError] = some (Except.error ()) :=
  ⟨rfl, (c8_digest_fail_closed [SEvent.data [65], SEvent.streamError]).1
      [SEvent.data [65]] [] rfl (fun e he => ⟨[65], List.mem_singleton.mp he⟩)⟩

/-- Counterexample to C2 as stated: a concrete schedule of two concurrent
merges of the same fileHash under which both tasks pass every guard and
enter the write loop, their write actions interleave (the task tags of the
writes switch twice), and the losing task's response is the generic 500
server error — not a merge-in-progress rejection, which no code path can
produce. -/
theorem c2_counterexample :
    (runSched ⟨some c2Container, none⟩ MergePC.start MergePC.start c2Sched).2.1
      = MergePC.finished MergeTaskResp.mergedOk
    ∧ (runSched ⟨some c2Container, none⟩ MergePC.start MergePC.start c2Sched).2.2.1
      = MergePC.finished MergeTaskResp.serverError
    ∧ 2 ≤ switches (writesOf
        (runSched ⟨some c2Container, none⟩ MergePC.start MergePC.start c2Sched).2.2.2)
    ∧ MergeTaskResp.serverError ≠ MergeTaskResp.mergeInProgress :=
  ⟨by decide, by decide, by decide, by decide⟩

/-- C2 (amended): the server implements no per-fileHash merge exclusion:
no step of an in-flight merge can ever produce the merge-in-progress
rejection, and there is a schedule of two concurrent merges of one
fileHash on which both tasks become writers with interleaved writes, the
first completing successfully and the second failing with the generic 500
error once the chunks it relies on have been deleted by the first. -/
theorem c2_no_merge_exclusion (fs : MergeFS) (pc : MergePC)
    (h : pc ≠ MergePC.finished MergeTaskResp.mergeInProgress) :
    (mergeStep fs pc).2.1 ≠ MergePC.finished MergeTaskResp.mergeInProgress
    ∧ ((runSched ⟨some c2Container, none⟩ MergePC.start MergePC.start c2Sched).2.1
        = MergePC.finished MergeTaskResp.mergedOk
      ∧ (runSched ⟨some c2Container, none⟩ MergePC.start MergePC.start c2Sched).2.2.1
        = MergePC.finished MergeTaskResp.serverError
      ∧ 2 ≤ switches (writesOf
          (runSched ⟨some c2Container, none⟩ MergePC.start MergePC.start c2Sched).2.2.2)) := by
  refine ⟨?_, by decide, by decide, by decide⟩
  cases pc with
  | start =>
    cases hc : fs.container <;> simp [mergeStep, hc]
  | readdirWait =>
    cases hc : fs.container with
    | none => simp [mergeStep, hc]
    | some entries =>
      by_cases hlen : (entries.length == 0) = true <;> simp [mergeStep, hc, hlen]
  | reading todo =>
    cases todo with
    | nil => simp [mergeStep]
    | cons k todo2 =>
      cases hl : (fs.container.bind (fun c => chunkLookup c k)) <;> simp [mergeStep, hl]
  | unlinking k todo =>
    cases hc : fs.container with
    | none => simp [mergeStep, hc]
    | some c =>
      by_cases hany : (c.any (fun p => p.1 == k)) = true
      · cases todo <;> simp [mergeStep, hc, hany]
      · simp [mergeStep, hc, hany]
  | finished r =>
    simpa [mergeStep] using h

/-- Witness for the amended C2: one step from the initial program counter
on an empty filesystem does not produce the merge-in-progress
rejection. -/
theorem c2_no_merge_exclusion_witness :
    MergePC.start ≠ MergePC.finished MergeTaskResp.mergeInProgress
    ∧ (mergeStep ⟨none, none⟩ MergePC.start).2.1
        ≠ MergePC.finished MergeTaskResp.mergeInProgress :=
  ⟨by decide, (c2_no_merge_exclusion ⟨none, none⟩ MergePC.start (by decide)).1⟩
